import Mathlib

/-!
Shallow embedding of `src/packages/react-resizable-panels/src/utils/group.ts`
(the layout-redistribution core of a resizable-panel group) and proofs about it.

Modelling conventions:
* JavaScript numbers are modelled as exact rationals (`ℚ`).
* A JavaScript `Map<string, PanelData>` is modelled as the list of its values in
  insertion order; `panelsMapToSortedArray` stably sorts it by `order`.
* `Array.prototype.findIndex` is modelled by `findIndexJs`, returning `-1 : Int`
  when no element matches, as in JavaScript.
* Executions that dereference `undefined` (a TypeError in JavaScript) or that
  would poison the state with `NaN` by reading a missing array slot are modelled
  by the `crash` outcome / `none`; no claim exercises those paths.
* The write-only side effect on the `panelSizeBeforeCollapse` map is modelled as
  the ordered list of `(id, size)` entries written during the call.
* `adjustByDelta` returns the untouched `prevSizes` array itself on its no-op
  paths.  Returning that very reference (as opposed to a fresh array) is
  modelled by the dedicated outcome `AdjustOutcome.same`.
-/

namespace RRP

/-- One panel's data (`PanelData` in `types.ts`), restricted to the fields the
functions under verification read.  The two `Bool` flags model whether the
optional callbacks `callbacksRef.current.onResize` / `.onCollapse` are present. -/
structure PanelData where
  id : String
  order : Int
  minSize : ℚ
  maxSize : ℚ
  collapsible : Bool
  hasOnResize : Bool
  hasOnCollapse : Bool
deriving DecidableEq

/-- A resize event; the code only inspects `event?.type?.startsWith("key")`. -/
structure ResizeEvent where
  type : String
deriving DecidableEq

/-- `event?.type?.startsWith("key")`, coerced to a boolean (`undefined` is falsy
when `event` is `null`). -/
def isKeyboardEvent (event : Option ResizeEvent) : Bool :=
  match event with
  | none => false
  | some e => e.type.startsWith "key"

/-- Modelled from the spec: `PRECISION` is imported from `../constants`, which is
not part of the reviewed source.  The spec only calls it "the fixed number of
significant digits sizes are rounded/compared to"; the value `5` is used here.
All counterexamples below are robust to the exact value (they only rely on the
compared strings having different leading characters). -/
def PRECISION : ℕ := 5

/-- JavaScript `Array.prototype.findIndex` helper: index of the first element
satisfying `p`, or `none`. -/
def jsFindIdx (p : α → Bool) : List α → Option ℕ
  | [] => none
  | a :: rest => if p a = true then some 0 else (jsFindIdx p rest).map (· + 1)

/-- JavaScript `Array.prototype.findIndex`: `-1` when no element matches. -/
def findIndexJs (p : α → Bool) (l : List α) : Int :=
  match jsFindIdx p l with
  | some n => (n : Int)
  | none => -1

/-- Insert a panel into an already sorted list, after every element whose
`order` is `≤` its own (this realizes the stability of `Array.prototype.sort`
with comparator `(a, b) => a.order - b.order`). -/
def insertPanel (a : PanelData) : List PanelData → List PanelData
  | [] => [a]
  | b :: rest => if b.order ≤ a.order then b :: insertPanel a rest else a :: b :: rest

/-- Stable insertion sort by `order`; elements earlier in the input stay before
later elements with equal `order`. -/
def sortPanels : List PanelData → List PanelData
  | [] => []
  | a :: rest => insertPanel a (sortPanels rest)

/-- `panelsMapToSortedArray`: the map's values (insertion order) stably sorted
ascending by `order`. -/
def panelsMapToSortedArray (panels : List PanelData) : List PanelData :=
  sortPanels panels

/-- `safeResizePanel` (lines 238-270 of `group.ts`): clamp a requested resize of
one panel to its min/max/collapse policy. -/
def safeResizePanel (panel : PanelData) (delta : ℚ) (prevSize : ℚ)
    (event : Option ResizeEvent) : ℚ :=
  let nextSizeUnsafe := prevSize + delta
  if panel.collapsible = true then
    if prevSize > 0 then
      if nextSizeUnsafe ≤ 0 then 0
      else min panel.maxSize (max panel.minSize nextSizeUnsafe)
    else
      if isKeyboardEvent event = false ∧ nextSizeUnsafe < panel.minSize then 0
      else min panel.maxSize (max panel.minSize nextSizeUnsafe)
  else
    min panel.maxSize (max panel.minSize nextSizeUnsafe)

/-- `10 ^ k` as a rational, for an integer exponent. -/
def pow10 (k : ℤ) : ℚ :=
  if 0 ≤ k then ((10 ^ k.toNat : ℕ) : ℚ) else mkRat 1 (10 ^ (-k).toNat)

/-- Base-10 digit count of `n`, computed with explicit fuel (`n` itself is
always enough fuel) so that it reduces inside the kernel. -/
def digitCountAux : ℕ → ℕ → ℕ
  | 0, _ => 0
  | fuel + 1, n => if n = 0 then 0 else digitCountAux fuel (n / 10) + 1

/-- Base-10 digit count of `n` (`0` for `0`). -/
def digitCount (n : ℕ) : ℕ :=
  digitCountAux n n

/-- `⌊log₁₀ x⌋` for a positive rational `x`: the unique `e` with
`10 ^ e ≤ x < 10 ^ (e + 1)`, computed from the digit counts of numerator and
denominator and corrected by direct comparison. -/
def ratFloorLog10 (x : ℚ) : ℤ :=
  let c : ℤ := (digitCount x.num.natAbs : ℤ) - (digitCount x.den : ℤ)
  if pow10 (c + 1) ≤ x then c + 1 else if pow10 c ≤ x then c else c - 1

/-- Round to the nearest integer, ties away from zero upward (the choice ECMA-262
prescribes for `Number.prototype.toPrecision`: of two equally near candidates,
"pick the larger"). -/
def roundHalfUp (x : ℚ) : ℤ :=
  (x + mkRat 1 2).floor

/-- Insert a decimal point after the first `pos` characters of `digits`. -/
def insertDot (digits : String) (pos : ℕ) : String :=
  String.mk (digits.data.take pos) ++ "." ++ String.mk (digits.data.drop pos)

/-- The exponent suffix of JavaScript exponential notation: sign and decimal
digits of `|e|`. -/
def expSuffix (e : ℤ) : String :=
  (if 0 ≤ e then "+" else "-") ++ Nat.repr e.natAbs

/-- Format `p` significant digits `ds` with decimal exponent `e` the way
`Number.prototype.toPrecision` does for a positive number. -/
def formatPrecDigits (ds : String) (e : ℤ) (p : ℕ) : String :=
  if e < -6 ∨ (p : ℤ) ≤ e then
    (if ds.length ≤ 1 then ds else insertDot ds 1) ++ "e" ++ expSuffix e
  else if e = (p : ℤ) - 1 then ds
  else if 0 ≤ e then insertDot ds (e.toNat + 1)
  else "0." ++ String.mk (List.replicate (-(e + 1)).toNat '0') ++ ds

/-- `x.toPrecision(p)` for a positive rational `x`. -/
def toPrecisionPos (x : ℚ) (p : ℕ) : String :=
  let e0 := ratFloorLog10 x
  let n0 := (roundHalfUp (x * pow10 ((p : ℤ) - 1 - e0))).toNat
  let n := if 10 ^ p ≤ n0 then n0 / 10 else n0
  let e := if 10 ^ p ≤ n0 then e0 + 1 else e0
  formatPrecDigits (Nat.repr n) e p

/-- `Number.prototype.toPrecision` on exact rationals: round to `p` significant
decimal digits and format (fixed or exponential notation per ECMA-262). -/
def toPrecision (x : ℚ) (p : ℕ) : String :=
  if x = 0 then
    let ds := String.mk (List.replicate p '0')
    if p = 1 then ds else insertDot ds 1
  else if x < 0 then "-" ++ toPrecisionPos (-x) p
  else toPrecisionPos x p

/-- JavaScript string `<`: lexicographic comparison of UTF-16 code units (all
strings compared here are ASCII, where code units coincide with code points). -/
def jsStrLt : List Char → List Char → Bool
  | _, [] => false
  | [], _ :: _ => true
  | a :: as, b :: bs =>
    if a.val < b.val then true
    else if b.val < a.val then false
    else jsStrLt as bs

/-- JavaScript `a >= b` on strings: `¬ (a < b)`. -/
def jsStrGe (a b : String) : Bool :=
  ! jsStrLt a.data b.data

/-- The shrink-side walk of `adjustByDelta` (the `while (true)` loop, lines
52-85 of `group.ts`), as explicit state passing.  State: the next-sizes array
being built, the accumulated `deltaApplied`, and the `panelSizeBeforeCollapse`
writes so far.  The walk moves `index` down (`delta < 0`) or up (`delta > 0`)
one step per iteration, so `panelsArray.length + 1` units of fuel always
suffice; `none` models the TypeError a JavaScript execution hits when
`panelsArray[index]` is `undefined` (or the `NaN` poisoning when
`prevSizes[index]` is), and is never reached from well-formed inputs. -/
def adjustLoop (panelsArray : List PanelData) (prevSizes : List ℚ)
    (event : Option ResizeEvent) (delta : ℚ) :
    ℕ → ℕ → List ℚ → ℚ → List (String × ℚ) →
    Option (List ℚ × ℚ × List (String × ℚ))
  | 0, _, _, _, _ => none
  | fuel + 1, index, nextSizes, deltaApplied, collapses =>
    match panelsArray[index]?, prevSizes[index]? with
    | some panel, some prevSize =>
      let nextSize := safeResizePanel panel (0 - |delta|) prevSize event
      if prevSize = nextSize then
        -- unchanged: fall through to the index-advance code
        if delta < 0 then
          if index = 0 then some (nextSizes, deltaApplied, collapses)
          else adjustLoop panelsArray prevSizes event delta fuel (index - 1)
            nextSizes deltaApplied collapses
        else
          if panelsArray.length ≤ index + 1 then
            some (nextSizes, deltaApplied, collapses)
          else adjustLoop panelsArray prevSizes event delta fuel (index + 1)
            nextSizes deltaApplied collapses
      else
        let collapses1 :=
          if nextSize = 0 ∧ prevSize > 0 then collapses ++ [(panel.id, prevSize)]
          else collapses
        let deltaApplied1 := deltaApplied + (prevSize - nextSize)
        let nextSizes1 := nextSizes.set index nextSize
        if jsStrGe (toPrecision deltaApplied1 PRECISION)
            (toPrecision delta PRECISION) = true then
          some (nextSizes1, deltaApplied1, collapses1)
        else if delta < 0 then
          if index = 0 then some (nextSizes1, deltaApplied1, collapses1)
          else adjustLoop panelsArray prevSizes event delta fuel (index - 1)
            nextSizes1 deltaApplied1 collapses1
        else
          if panelsArray.length ≤ index + 1 then
            some (nextSizes1, deltaApplied1, collapses1)
          else adjustLoop panelsArray prevSizes event delta fuel (index + 1)
            nextSizes1 deltaApplied1 collapses1
    | _, _ => none

/-- How `adjustByDelta` returned: `crash` models a JavaScript execution that
dereferences `undefined` (or poisons its state with `NaN`); `same` models
`return prevSizes` — the very same array reference; `next` models returning the
freshly built `nextSizes` array. -/
inductive AdjustOutcome
  | crash
  | same
  | next (sizes : List ℚ)
deriving DecidableEq

/-- Result of `adjustByDelta`: the returned array (by outcome) and the ordered
`panelSizeBeforeCollapse.set` writes performed during the call. -/
structure AdjustResult where
  outcome : AdjustOutcome
  collapses : List (String × ℚ)
deriving DecidableEq

/-- `adjustByDelta` (lines 4-99 of `group.ts`).  `delta0` is the parameter
`delta`; the local rebinding of `delta` at line 46 becomes the new name
`delta1`. -/
def adjustByDelta (event : Option ResizeEvent) (panels : List PanelData)
    (idBefore idAfter : String) (delta0 : ℚ) (prevSizes : List ℚ) :
    AdjustResult :=
  if delta0 = 0 then ⟨AdjustOutcome.same, []⟩
  else
    let panelsArray := panelsMapToSortedArray panels
    -- Max-bounds check the panel being expanded first (lines 32-48).
    let pivotId0 := if delta0 < 0 then idAfter else idBefore
    let i0 := findIndexJs (fun panel => panel.id == pivotId0) panelsArray
    if i0 < 0 then ⟨AdjustOutcome.crash, []⟩
    else
      match panelsArray[i0.toNat]?, prevSizes[i0.toNat]? with
      | some panel, some prevSize =>
        let nextSize := safeResizePanel panel |delta0| prevSize event
        if prevSize = nextSize then ⟨AdjustOutcome.same, []⟩
        else
          let collapses0 : List (String × ℚ) :=
            if nextSize = 0 ∧ prevSize > 0 then [(pivotId0, prevSize)] else []
          let delta1 := if delta0 < 0 then prevSize - nextSize else nextSize - prevSize
          -- Walk the shrink side (lines 50-85).
          let pivotId1 := if delta1 < 0 then idBefore else idAfter
          let i1 := findIndexJs (fun panel => panel.id == pivotId1) panelsArray
          if i1 < 0 then ⟨AdjustOutcome.crash, collapses0⟩
          else
            match adjustLoop panelsArray prevSizes event delta1
                (panelsArray.length + 1) i1.toNat prevSizes 0 collapses0 with
            | none => ⟨AdjustOutcome.crash, collapses0⟩
            | some (nextSizes, deltaApplied, collapses1) =>
              -- Bail out if nothing could shrink (lines 89-91).
              if deltaApplied = 0 then ⟨AdjustOutcome.same, collapses1⟩
              else
                -- Commit the pivot (lines 94-98).
                let pivotId2 := if delta1 < 0 then idAfter else idBefore
                let i2 := findIndexJs (fun panel => panel.id == pivotId2) panelsArray
                if i2 < 0 then
                  -- JavaScript: `nextSizes[-1] = ...` creates a stray property
                  -- and leaves the array's contents unchanged.
                  ⟨AdjustOutcome.next nextSizes, collapses1⟩
                else
                  match prevSizes[i2.toNat]? with
                  | none => ⟨AdjustOutcome.crash, collapses1⟩
                  | some pivotPrev =>
                    ⟨AdjustOutcome.next (nextSizes.set i2.toNat (pivotPrev + deltaApplied)),
                      collapses1⟩
      | _, _ => ⟨AdjustOutcome.crash, []⟩

/-- An observable callback invocation made by `callPanelCallbacks`: the panel's
position in the ordered sequence and the argument passed to the hook. -/
inductive PanelCall
  | resize (index : ℕ) (size : ℚ)
  | collapse (index : ℕ) (collapsed : Bool)
deriving DecidableEq

/-- JavaScript `prevSize !== nextSize` where `prevSize` may be `undefined`
(modelled as `none`): `undefined !== n` is `true` for every number `n`. -/
def jsNeq (prevSize : Option ℚ) (nextSize : ℚ) : Bool :=
  match prevSize with
  | none => true
  | some v => decide (v ≠ nextSize)

/-- JavaScript `!prevSize`: `undefined` and `0` are falsy. -/
def jsFalsy (prevSize : Option ℚ) : Bool :=
  match prevSize with
  | none => true
  | some v => decide (v = 0)

/-- JavaScript `prevSize !== 0` where `prevSize` may be `undefined`
(`undefined !== 0` is `true`). -/
def jsNeqZero (prevSize : Option ℚ) : Bool :=
  match prevSize with
  | none => true
  | some v => decide (v ≠ 0)

/-- Body of the `forEach` in `callPanelCallbacks` (lines 106-126 of
`group.ts`) at one index: the list of hook invocations it performs, in order
(`onResize` before `onCollapse`).  `none` models the TypeError thrown when
`panelsArray[index]` is `undefined` and the sizes differ. -/
def callbacksAt (panelsArray : List PanelData) (prevSizes : List ℚ)
    (index : ℕ) (nextSize : ℚ) : Option (List PanelCall) :=
  let prevSize := prevSizes[index]?
  if jsNeq prevSize nextSize = true then
    match panelsArray[index]? with
    | none => none
    | some panel =>
      let resizeCalls :=
        if panel.hasOnResize = true then [PanelCall.resize index nextSize] else []
      let collapseCalls :=
        if panel.collapsible = true ∧ panel.hasOnCollapse = true then
          if jsFalsy prevSize = true ∧ nextSize ≠ 0 then
            [PanelCall.collapse index false]
          else if jsNeqZero prevSize = true ∧ nextSize = 0 then
            [PanelCall.collapse index true]
          else []
        else []
      some (resizeCalls ++ collapseCalls)
  else some []

/-- The `forEach` of `callPanelCallbacks`, walking `nextSizes` from position
`index` on and concatenating the calls of each position. -/
def callRun (panelsArray : List PanelData) (prevSizes : List ℚ) :
    ℕ → List ℚ → Option (List PanelCall)
  | _, [] => some []
  | index, nextSize :: rest =>
    match callbacksAt panelsArray prevSizes index nextSize with
    | none => none
    | some calls =>
      match callRun panelsArray prevSizes (index + 1) rest with
      | none => none
      | some calls1 => some (calls ++ calls1)

/-- `callPanelCallbacks` (lines 101-127 of `group.ts`): diff `prevSizes`
against `nextSizes` and fire the per-panel hooks; the result is the ordered
list of hook invocations. -/
def callPanelCallbacks (panelsArray : List PanelData)
    (prevSizes nextSizes : List ℚ) : Option (List PanelCall) :=
  callRun panelsArray prevSizes 0 nextSizes

/-- `getFlexGrow` (lines 151-169 of `group.ts`): the panel's share of the
group as a string.  `sizes[index]` with `index = -1` (id not found) is
`undefined` in JavaScript, hence `none` here, and `size == null` then selects
the `"0"` branch. -/
def getFlexGrow (panels : List PanelData) (id : String) (sizes : List ℚ) :
    String :=
  if panels.length = 1 then "100"
  else
    let panelsArray := panelsMapToSortedArray panels
    let index := findIndexJs (fun panel => panel.id == id) panelsArray
    let size := if index < 0 then none else sizes[index.toNat]?
    match size with
    | none => "0"
    | some size => toPrecision size PRECISION

/-! ### Helper lemmas -/

theorem sum_set (l : List ℚ) (i : ℕ) (x v : ℚ) (h : l[i]? = some v) :
    (l.set i x).sum = l.sum - v + x := by
  induction l generalizing i with
  | nil => simp at h
  | cons a t ih =>
    cases i with
    | zero =>
      simp only [List.getElem?_cons_zero, Option.some.injEq] at h
      subst h
      simp only [List.set, List.sum_cons]
      ring
    | succ n =>
      simp only [List.getElem?_cons_succ] at h
      simp only [List.set, List.sum_cons, ih n h]
      ring

theorem jsFindIdx_some_lt {p : α → Bool} :
    ∀ {l : List α} {n : ℕ}, jsFindIdx p l = some n → n < l.length := by
  intro l
  induction l with
  | nil => intro n h; simp [jsFindIdx] at h
  | cons a t ih =>
    intro n h
    simp only [jsFindIdx] at h
    by_cases hp : p a = true
    · simp only [hp, if_pos rfl] at h
      cases h
      simp
    · simp only [if_neg hp] at h
      cases hm : jsFindIdx p t with
      | none => rw [hm] at h; simp at h
      | some m =>
        rw [hm] at h
        have hmn : m + 1 = n := by
          have : some (m + 1) = some n := h
          exact Option.some.inj this
        subst hmn
        have := ih hm
        simp only [List.length_cons]
        omega

theorem jsFindIdx_none {p : α → Bool} :
    ∀ {l : List α}, (∀ a ∈ l, p a = false) → jsFindIdx p l = none := by
  intro l
  induction l with
  | nil => intro _; rfl
  | cons a t ih =>
    intro h
    have ha := h a (List.mem_cons_self a t)
    have ht := ih fun b hb => h b (List.mem_cons_of_mem a hb)
    simp only [jsFindIdx, ha, ht]
    simp

theorem findIndexJs_eq_natCast {p : α → Bool} {l : List α} {n : ℕ}
    (h : findIndexJs p l = (n : ℤ)) : jsFindIdx p l = some n := by
  unfold findIndexJs at h
  cases hm : jsFindIdx p l with
  | none =>
    rw [hm] at h
    have h2 : (-1 : ℤ) = (n : ℤ) := h
    omega
  | some m =>
    rw [hm] at h
    have h2 : ((m : ℤ)) = (n : ℤ) := h
    have : m = n := by omega
    rw [this]

theorem mem_insertPanel {a b : PanelData} :
    ∀ {l : List PanelData}, b ∈ insertPanel a l ↔ b = a ∨ b ∈ l := by
  intro l
  induction l with
  | nil => simp [insertPanel]
  | cons c t ih =>
    simp only [insertPanel]
    by_cases hc : c.order ≤ a.order
    · simp only [if_pos hc, List.mem_cons, ih]
      tauto
    · simp only [if_neg hc, List.mem_cons]

theorem mem_sortPanels {b : PanelData} :
    ∀ {l : List PanelData}, b ∈ sortPanels l ↔ b ∈ l := by
  intro l
  induction l with
  | nil => simp [sortPanels]
  | cons a t ih =>
    simp only [sortPanels, mem_insertPanel, ih, List.mem_cons]

/-- Invariant of the downward shrink walk (`delta < 0`): it only rewrites
entries at positions `≤` the start index, and every change is balanced against
`deltaApplied`, so `nextSizes.sum + deltaApplied` is preserved. -/
theorem adjustLoop_spec_down (arr : List PanelData) (prev : List ℚ)
    (event : Option ResizeEvent) (delta : ℚ) (hd : delta < 0) :
    ∀ (fuel index : ℕ) (ns : List ℚ) (dA : ℚ) (col : List (String × ℚ))
      (ns1 : List ℚ) (dA1 : ℚ) (col1 : List (String × ℚ)),
      (∀ i : ℕ, i ≤ index → ns[i]? = prev[i]?) →
      adjustLoop arr prev event delta fuel index ns dA col = some (ns1, dA1, col1) →
      ns1.length = ns.length ∧ ns1.sum + dA1 = ns.sum + dA ∧
        ∀ j : ℕ, index < j → ns1[j]? = ns[j]? := by
  intro fuel
  induction fuel with
  | zero =>
    intro index ns dA col ns1 dA1 col1 _ h
    simp [adjustLoop] at h
  | succ fuel ih =>
    intro index ns dA col ns1 dA1 col1 hEq h
    cases harr : arr[index]? with
    | none =>
      simp only [adjustLoop, harr] at h
      exact Option.noConfusion h
    | some panel =>
      cases hprev : prev[index]? with
      | none =>
        simp only [adjustLoop, harr, hprev] at h
        exact Option.noConfusion h
      | some prevSize =>
        simp only [adjustLoop, harr, hprev] at h
        have hns : ns[index]? = some prevSize := (hEq index (Nat.le_refl index)).trans hprev
        by_cases hch : prevSize = safeResizePanel panel (0 - |delta|) prevSize event
        · rw [if_pos hch, if_pos hd] at h
          by_cases hi0 : index = 0
          · rw [if_pos hi0] at h
            injection h with hh
            injection hh with h1 h23
            injection h23 with h2 h3
            subst h1; subst h2
            exact ⟨rfl, rfl, fun j _ => rfl⟩
          · rw [if_neg hi0] at h
            obtain ⟨L, S, U⟩ := ih (index - 1) ns dA col ns1 dA1 col1
              (fun i hi => hEq i (Nat.le_trans hi (Nat.sub_le index 1))) h
            exact ⟨L, S, fun j hj => U j (by omega)⟩
        · rw [if_neg hch] at h
          by_cases hbr : jsStrGe (toPrecision (dA + (prevSize - safeResizePanel panel (0 - |delta|) prevSize event)) PRECISION)
              (toPrecision delta PRECISION) = true
          · rw [if_pos hbr] at h
            injection h with hh
            injection hh with h1 h23
            injection h23 with h2 h3
            subst h1; subst h2
            refine ⟨List.length_set ns index _, ?_, ?_⟩
            · rw [sum_set ns index _ prevSize hns]; ring
            · intro j hj
              exact List.getElem?_set_ne (by omega)
          · rw [if_neg hbr, if_pos hd] at h
            by_cases hi0 : index = 0
            · rw [if_pos hi0] at h
              injection h with hh
              injection hh with h1 h23
              injection h23 with h2 h3
              subst h1; subst h2
              refine ⟨List.length_set ns index _, ?_, ?_⟩
              · rw [sum_set ns index _ prevSize hns]; ring
              · intro j hj
                exact List.getElem?_set_ne (by omega)
            · rw [if_neg hi0] at h
              obtain ⟨L, S, U⟩ := ih (index - 1) (ns.set index _) _ _ ns1 dA1 col1
                (fun i hi => by
                  rw [List.getElem?_set_ne (by omega)]
                  exact hEq i (Nat.le_trans hi (Nat.sub_le index 1))) h
              refine ⟨L.trans (List.length_set ns index _), ?_, ?_⟩
              · rw [S, sum_set ns index _ prevSize hns]; ring
              · intro j hj
                rw [U j (by omega), List.getElem?_set_ne (by omega)]

/-- Invariant of the upward shrink walk (`delta ≥ 0`): mirror image of
`adjustLoop_spec_down`, rewriting only positions `≥` the start index. -/
theorem adjustLoop_spec_up (arr : List PanelData) (prev : List ℚ)
    (event : Option ResizeEvent) (delta : ℚ) (hd : ¬ delta < 0) :
    ∀ (fuel index : ℕ) (ns : List ℚ) (dA : ℚ) (col : List (String × ℚ))
      (ns1 : List ℚ) (dA1 : ℚ) (col1 : List (String × ℚ)),
      (∀ i : ℕ, index ≤ i → ns[i]? = prev[i]?) →
      adjustLoop arr prev event delta fuel index ns dA col = some (ns1, dA1, col1) →
      ns1.length = ns.length ∧ ns1.sum + dA1 = ns.sum + dA ∧
        ∀ j : ℕ, j < index → ns1[j]? = ns[j]? := by
  intro fuel
  induction fuel with
  | zero =>
    intro index ns dA col ns1 dA1 col1 _ h
    simp [adjustLoop] at h
  | succ fuel ih =>
    intro index ns dA col ns1 dA1 col1 hEq h
    cases harr : arr[index]? with
    | none =>
      simp only [adjustLoop, harr] at h
      exact Option.noConfusion h
    | some panel =>
      cases hprev : prev[index]? with
      | none =>
        simp only [adjustLoop, harr, hprev] at h
        exact Option.noConfusion h
      | some prevSize =>
        simp only [adjustLoop, harr, hprev] at h
        have hns : ns[index]? = some prevSize := (hEq index (Nat.le_refl index)).trans hprev
        by_cases hch : prevSize = safeResizePanel panel (0 - |delta|) prevSize event
        · rw [if_pos hch, if_neg hd] at h
          by_cases hiL : arr.length ≤ index + 1
          · rw [if_pos hiL] at h
            injection h with hh
            injection hh with h1 h23
            injection h23 with h2 h3
            subst h1; subst h2
            exact ⟨rfl, rfl, fun j _ => rfl⟩
          · rw [if_neg hiL] at h
            obtain ⟨L, S, U⟩ := ih (index + 1) ns dA col ns1 dA1 col1
              (fun i hi => hEq i (by omega)) h
            exact ⟨L, S, fun j hj => U j (by omega)⟩
        · rw [if_neg hch] at h
          by_cases hbr : jsStrGe (toPrecision (dA + (prevSize - safeResizePanel panel (0 - |delta|) prevSize event)) PRECISION)
              (toPrecision delta PRECISION) = true
          · rw [if_pos hbr] at h
            injection h with hh
            injection hh with h1 h23
            injection h23 with h2 h3
            subst h1; subst h2
            refine ⟨List.length_set ns index _, ?_, ?_⟩
            · rw [sum_set ns index _ prevSize hns]; ring
            · intro j hj
              exact List.getElem?_set_ne (by omega)
          · rw [if_neg hbr, if_neg hd] at h
            by_cases hiL : arr.length ≤ index + 1
            · rw [if_pos hiL] at h
              injection h with hh
              injection hh with h1 h23
              injection h23 with h2 h3
              subst h1; subst h2
              refine ⟨List.length_set ns index _, ?_, ?_⟩
              · rw [sum_set ns index _ prevSize hns]; ring
              · intro j hj
                exact List.getElem?_set_ne (by omega)
            · rw [if_neg hiL] at h
              obtain ⟨L, S, U⟩ := ih (index + 1) (ns.set index _) _ _ ns1 dA1 col1
                (fun i hi => by
                  rw [List.getElem?_set_ne (by omega)]
                  exact hEq i (by omega)) h
              refine ⟨L.trans (List.length_set ns index _), ?_, ?_⟩
              · rw [S, sum_set ns index _ prevSize hns]; ring
              · intro j hj
                rw [U j (by omega), List.getElem?_set_ne (by omega)]

/-- The downward walk cannot run out of fuel: `index + 1` iterations suffice. -/
theorem adjustLoop_isSome_down (arr : List PanelData) (prev : List ℚ)
    (event : Option ResizeEvent) (delta : ℚ) (hd : delta < 0) :
    ∀ (fuel index : ℕ) (ns : List ℚ) (dA : ℚ) (col : List (String × ℚ)),
      index < fuel → index < arr.length → arr.length ≤ prev.length →
      (adjustLoop arr prev event delta fuel index ns dA col).isSome = true := by
  intro fuel
  induction fuel with
  | zero => intro index ns dA col hf _ _; omega
  | succ fuel ih =>
    intro index ns dA col hf hiL hlen
    obtain ⟨panel, harr⟩ : ∃ panel, arr[index]? = some panel :=
      ⟨_, List.getElem?_eq_getElem hiL⟩
    obtain ⟨prevSize, hprev⟩ : ∃ v, prev[index]? = some v :=
      ⟨_, List.getElem?_eq_getElem (by omega)⟩
    simp only [adjustLoop, harr, hprev]
    by_cases hch : prevSize = safeResizePanel panel (0 - |delta|) prevSize event
    · rw [if_pos hch, if_pos hd]
      by_cases hi0 : index = 0
      · rw [if_pos hi0]; rfl
      · rw [if_neg hi0]
        exact ih (index - 1) ns dA col (by omega) (by omega) hlen
    · rw [if_neg hch]
      by_cases hbr : jsStrGe (toPrecision (dA + (prevSize - safeResizePanel panel (0 - |delta|) prevSize event)) PRECISION)
          (toPrecision delta PRECISION) = true
      · rw [if_pos hbr]; rfl
      · rw [if_neg hbr, if_pos hd]
        by_cases hi0 : index = 0
        · rw [if_pos hi0]; rfl
        · rw [if_neg hi0]
          exact ih (index - 1) _ _ _ (by omega) (by omega) hlen

/-- The upward walk cannot run out of fuel: `arr.length - index` iterations
suffice. -/
theorem adjustLoop_isSome_up (arr : List PanelData) (prev : List ℚ)
    (event : Option ResizeEvent) (delta : ℚ) (hd : ¬ delta < 0) :
    ∀ (fuel index : ℕ) (ns : List ℚ) (dA : ℚ) (col : List (String × ℚ)),
      arr.length ≤ fuel + index → index < arr.length → arr.length ≤ prev.length →
      (adjustLoop arr prev event delta fuel index ns dA col).isSome = true := by
  intro fuel
  induction fuel with
  | zero => intro index ns dA col hf hiL _; omega
  | succ fuel ih =>
    intro index ns dA col hf hiL hlen
    obtain ⟨panel, harr⟩ : ∃ panel, arr[index]? = some panel :=
      ⟨_, List.getElem?_eq_getElem hiL⟩
    obtain ⟨prevSize, hprev⟩ : ∃ v, prev[index]? = some v :=
      ⟨_, List.getElem?_eq_getElem (by omega)⟩
    simp only [adjustLoop, harr, hprev]
    by_cases hch : prevSize = safeResizePanel panel (0 - |delta|) prevSize event
    · rw [if_pos hch, if_neg hd]
      by_cases hiE : arr.length ≤ index + 1
      · rw [if_pos hiE]; rfl
      · rw [if_neg hiE]
        exact ih (index + 1) ns dA col (by omega) (by omega) hlen
    · rw [if_neg hch]
      by_cases hbr : jsStrGe (toPrecision (dA + (prevSize - safeResizePanel panel (0 - |delta|) prevSize event)) PRECISION)
          (toPrecision delta PRECISION) = true
      · rw [if_pos hbr]; rfl
      · rw [if_neg hbr, if_neg hd]
        by_cases hiE : arr.length ≤ index + 1
        · rw [if_pos hiE]; rfl
        · rw [if_neg hiE]
          exact ih (index + 1) _ _ _ (by omega) (by omega) hlen


/-- After a shrink walk started at `sIdx` on an untouched initial state,
writing `prev[gIdx] + deltaApplied` at a grow index `gIdx` on the other side of
the walk restores the original total. -/
theorem commit_sum_of_loop
    (arr : List PanelData) (prev : List ℚ) (event : Option ResizeEvent)
    (delta1 : ℚ) (sIdx gIdx : ℕ) (col0 : List (String × ℚ)) (ns0 : List ℚ)
    (dA : ℚ) (col1 : List (String × ℚ)) (pv : ℚ)
    (hloop : adjustLoop arr prev event delta1 (arr.length + 1) sIdx prev 0 col0 =
      some (ns0, dA, col1))
    (hdir : (delta1 < 0 ∧ sIdx < gIdx) ∨ (¬ delta1 < 0 ∧ gIdx < sIdx))
    (hpv : prev[gIdx]? = some pv) :
    (ns0.set gIdx (pv + dA)).sum = prev.sum := by
  rcases hdir with ⟨hd, hlt⟩ | ⟨hd, hlt⟩
  · obtain ⟨L, S, U⟩ := adjustLoop_spec_down arr prev event delta1 hd
      (arr.length + 1) sIdx prev 0 col0 ns0 dA col1 (fun i _ => rfl) hloop
    have hg : ns0[gIdx]? = some pv := (U gIdx hlt).trans hpv
    rw [sum_set ns0 gIdx _ pv hg]
    linarith
  · obtain ⟨L, S, U⟩ := adjustLoop_spec_up arr prev event delta1 hd
      (arr.length + 1) sIdx prev 0 col0 ns0 dA col1 (fun i _ => rfl) hloop
    have hg : ns0[gIdx]? = some pv := (U gIdx hlt).trans hpv
    rw [sum_set ns0 gIdx _ pv hg]
    linarith

/-- C1: budget conservation.  For every call to `adjustByDelta` on a
well-formed divider (`idBefore` at position `k` and `idAfter` at position
`k + 1` of the ordered panel sequence, sizes array index-aligned with it) that
returns a fresh `nextSizes` array — in particular whenever the result differs
from `prevSizes` — the sum of the returned sizes equals the sum of the previous
sizes: total size is redistributed, never created or destroyed. -/
theorem adjustByDelta_budget_conservation
    (event : Option ResizeEvent) (panels : List PanelData)
    (idBefore idAfter : String) (delta : ℚ) (prevSizes : List ℚ)
    (k : ℕ) (ns : List ℚ)
    (hB : findIndexJs (fun panel => panel.id == idBefore) (panelsMapToSortedArray panels) = (k : ℤ))
    (hA : findIndexJs (fun panel => panel.id == idAfter) (panelsMapToSortedArray panels) = ((k + 1 : ℕ) : ℤ))
    (hlen : prevSizes.length = (panelsMapToSortedArray panels).length)
    (h : (adjustByDelta event panels idBefore idAfter delta prevSizes).outcome = AdjustOutcome.next ns) :
    ns.sum = prevSizes.sum := by
  by_cases h0 : delta = 0
  · simp only [adjustByDelta, if_pos h0] at h
    exact absurd h (by simp)
  · have hkA : k + 1 < (panelsMapToSortedArray panels).length :=
      jsFindIdx_some_lt (findIndexJs_eq_natCast hA)
    have hkB : k < (panelsMapToSortedArray panels).length := by omega
    obtain ⟨szA, hszA⟩ : ∃ v, prevSizes[k + 1]? = some v :=
      ⟨_, List.getElem?_eq_getElem (by omega)⟩
    obtain ⟨szB, hszB⟩ : ∃ v, prevSizes[k]? = some v :=
      ⟨_, List.getElem?_eq_getElem (by omega)⟩
    obtain ⟨panelA, harrA⟩ : ∃ p, (panelsMapToSortedArray panels)[k + 1]? = some p :=
      ⟨_, List.getElem?_eq_getElem hkA⟩
    obtain ⟨panelB, harrB⟩ : ∃ p, (panelsMapToSortedArray panels)[k]? = some p :=
      ⟨_, List.getElem?_eq_getElem hkB⟩
    simp only [adjustByDelta, if_neg h0] at h
    by_cases hd0 : delta < 0
    · simp only [if_pos hd0, hA, if_neg (show ¬ (((k + 1 : ℕ) : ℤ) < 0) from by omega),
        Int.toNat_natCast, harrA, hszA] at h
      by_cases hch : szA = safeResizePanel panelA |delta| szA event
      · rw [if_pos hch] at h
        exact absurd h (by simp)
      · rw [if_neg hch] at h
        by_cases hd1 : szA - safeResizePanel panelA |delta| szA event < 0
        · simp only [if_pos hd1, hB, if_neg (show ¬ (((k : ℕ) : ℤ) < 0) from by omega),
            Int.toNat_natCast] at h
          cases hloop : adjustLoop (panelsMapToSortedArray panels) prevSizes event
              (szA - safeResizePanel panelA |delta| szA event)
              ((panelsMapToSortedArray panels).length + 1) k prevSizes 0
              (if safeResizePanel panelA |delta| szA event = 0 ∧ szA > 0
                then [(idAfter, szA)] else []) with
          | none =>
            rw [hloop] at h
            exact absurd h (by simp)
          | some out =>
            obtain ⟨ns0, dA, col1⟩ := out
            rw [hloop] at h
            by_cases hdA : dA = 0
            · simp only [if_pos hdA] at h
              exact absurd h (by simp)
            · simp only [if_neg hdA, if_pos hd1, hA,
                if_neg (show ¬ (((k + 1 : ℕ) : ℤ) < 0) from by omega),
                Int.toNat_natCast, hszA] at h
              injection h with hh
              subst hh
              exact commit_sum_of_loop _ _ _ _ k (k + 1) _ _ _ _ _ hloop
                (Or.inl ⟨hd1, by omega⟩) hszA
        · simp only [if_neg hd1, hA, if_neg (show ¬ (((k + 1 : ℕ) : ℤ) < 0) from by omega),
            Int.toNat_natCast] at h
          cases hloop : adjustLoop (panelsMapToSortedArray panels) prevSizes event
              (szA - safeResizePanel panelA |delta| szA event)
              ((panelsMapToSortedArray panels).length + 1) (k + 1) prevSizes 0
              (if safeResizePanel panelA |delta| szA event = 0 ∧ szA > 0
                then [(idAfter, szA)] else []) with
          | none =>
            rw [hloop] at h
            exact absurd h (by simp)
          | some out =>
            obtain ⟨ns0, dA, col1⟩ := out
            rw [hloop] at h
            by_cases hdA : dA = 0
            · simp only [if_pos hdA] at h
              exact absurd h (by simp)
            · simp only [if_neg hdA, if_neg hd1, hB,
                if_neg (show ¬ (((k : ℕ) : ℤ) < 0) from by omega),
                Int.toNat_natCast, hszB] at h
              injection h with hh
              subst hh
              exact commit_sum_of_loop _ _ _ _ (k + 1) k _ _ _ _ _ hloop
                (Or.inr ⟨hd1, by omega⟩) hszB
    · simp only [if_neg hd0, hB, if_neg (show ¬ (((k : ℕ) : ℤ) < 0) from by omega),
        Int.toNat_natCast, harrB, hszB] at h
      by_cases hch : szB = safeResizePanel panelB |delta| szB event
      · rw [if_pos hch] at h
        exact absurd h (by simp)
      · rw [if_neg hch] at h
        by_cases hd1 : safeResizePanel panelB |delta| szB event - szB < 0
        · simp only [if_pos hd1, hB, if_neg (show ¬ (((k : ℕ) : ℤ) < 0) from by omega),
            Int.toNat_natCast] at h
          cases hloop : adjustLoop (panelsMapToSortedArray panels) prevSizes event
              (safeResizePanel panelB |delta| szB event - szB)
              ((panelsMapToSortedArray panels).length + 1) k prevSizes 0
              (if safeResizePanel panelB |delta| szB event = 0 ∧ szB > 0
                then [(idBefore, szB)] else []) with
          | none =>
            rw [hloop] at h
            exact absurd h (by simp)
          | some out =>
            obtain ⟨ns0, dA, col1⟩ := out
            rw [hloop] at h
            by_cases hdA : dA = 0
            · simp only [if_pos hdA] at h
              exact absurd h (by simp)
            · simp only [if_neg hdA, if_pos hd1, hA,
                if_neg (show ¬ (((k + 1 : ℕ) : ℤ) < 0) from by omega),
                Int.toNat_natCast, hszA] at h
              injection h with hh
              subst hh
              exact commit_sum_of_loop _ _ _ _ k (k + 1) _ _ _ _ _ hloop
                (Or.inl ⟨hd1, by omega⟩) hszA
        · simp only [if_neg hd1, hA, if_neg (show ¬ (((k + 1 : ℕ) : ℤ) < 0) from by omega),
            Int.toNat_natCast] at h
          cases hloop : adjustLoop (panelsMapToSortedArray panels) prevSizes event
              (safeResizePanel panelB |delta| szB event - szB)
              ((panelsMapToSortedArray panels).length + 1) (k + 1) prevSizes 0
              (if safeResizePanel panelB |delta| szB event = 0 ∧ szB > 0
                then [(idBefore, szB)] else []) with
          | none =>
            rw [hloop] at h
            exact absurd h (by simp)
          | some out =>
            obtain ⟨ns0, dA, col1⟩ := out
            rw [hloop] at h
            by_cases hdA : dA = 0
            · simp only [if_pos hdA] at h
              exact absurd h (by simp)
            · simp only [if_neg hdA, if_neg hd1, hB,
                if_neg (show ¬ (((k : ℕ) : ℤ) < 0) from by omega),
                Int.toNat_natCast, hszB] at h
              injection h with hh
              subst hh
              exact commit_sum_of_loop _ _ _ _ (k + 1) k _ _ _ _ _ hloop
                (Or.inr ⟨hd1, by omega⟩) hszB

/-- C1 witness: the spec's end-to-end scenario.  Two panels `a` and `b` with
sizes `[60, 40]` and `delta = -15` at the divider `(a, b)` produce `[45, 55]`,
whose sum the theorem equates with the previous total. -/
theorem adjustByDelta_budget_conservation_witness :
    ([45, 55] : List ℚ).sum = ([60, 40] : List ℚ).sum :=
  adjustByDelta_budget_conservation none
    [⟨"a", 0, 10, 100, false, false, false⟩, ⟨"b", 1, 10, 100, true, false, false⟩]
    "a" "b" (-15) [60, 40] 0 [45, 55]
    (by with_unfolding_all decide) (by with_unfolding_all decide)
    (by with_unfolding_all decide) (by with_unfolding_all decide)


/-- Reading back the slot just written by `List.set`. -/
theorem getElem?_set_eq (l : List ℚ) (i : ℕ) (x : ℚ) (h : i < l.length) :
    (l.set i x)[i]? = some x := by
  rw [List.getElem?_set_self']
  simp [List.getElem?_eq_getElem h]

/-- C8: no-op and infeasible requests are signaled by returning the very
`prevSizes` reference (`AdjustOutcome.same`), and in exactly these cases: the
requested delta is `0`, the grow-side pivot's constrained resize leaves its
size unchanged, or the shrink walk accumulates `deltaApplied = 0`; moreover a
fresh array (`AdjustOutcome.next`) is never structurally equal to `prevSizes`,
so reference identity is the complete no-change signal and a bailed-out call
leaves the sizes state entirely untouched. -/
theorem adjustByDelta_identity_signaling
    (event : Option ResizeEvent) (panels : List PanelData)
    (idBefore idAfter : String) (delta : ℚ) (prevSizes : List ℚ)
    (k : ℕ) (panel : PanelData) (pv : ℚ)
    (hB : findIndexJs (fun panel => panel.id == idBefore) (panelsMapToSortedArray panels) = (k : ℤ))
    (hA : findIndexJs (fun panel => panel.id == idAfter) (panelsMapToSortedArray panels) = ((k + 1 : ℕ) : ℤ))
    (hlen : prevSizes.length = (panelsMapToSortedArray panels).length)
    (hpanel : (panelsMapToSortedArray panels)[if delta < 0 then k + 1 else k]? = some panel)
    (hpv : prevSizes[if delta < 0 then k + 1 else k]? = some pv) :
    ((adjustByDelta event panels idBefore idAfter delta prevSizes).outcome = AdjustOutcome.same ↔
      delta = 0 ∨ safeResizePanel panel |delta| pv event = pv ∨
        ∃ l c, adjustLoop (panelsMapToSortedArray panels) prevSizes event
          (if delta < 0 then pv - safeResizePanel panel |delta| pv event
            else safeResizePanel panel |delta| pv event - pv)
          ((panelsMapToSortedArray panels).length + 1)
          (if (if delta < 0 then pv - safeResizePanel panel |delta| pv event
            else safeResizePanel panel |delta| pv event - pv) < 0 then k else k + 1)
          prevSizes 0
          (if safeResizePanel panel |delta| pv event = 0 ∧ pv > 0
            then [((if delta < 0 then idAfter else idBefore), pv)] else []) = some (l, 0, c)) ∧
    ∀ ns, (adjustByDelta event panels idBefore idAfter delta prevSizes).outcome = AdjustOutcome.next ns →
      ns ≠ prevSizes := by
  by_cases h0 : delta = 0
  · constructor
    · simp [adjustByDelta, if_pos h0, h0]
    · simp [adjustByDelta, if_pos h0]
  · have hkA : k + 1 < (panelsMapToSortedArray panels).length :=
      jsFindIdx_some_lt (findIndexJs_eq_natCast hA)
    have hkB : k < (panelsMapToSortedArray panels).length := by omega
    obtain ⟨szA, hszA⟩ : ∃ v, prevSizes[k + 1]? = some v :=
      ⟨_, List.getElem?_eq_getElem (by omega)⟩
    obtain ⟨szB, hszB⟩ : ∃ v, prevSizes[k]? = some v :=
      ⟨_, List.getElem?_eq_getElem (by omega)⟩
    simp only [adjustByDelta, if_neg h0]
    by_cases hd0 : delta < 0
    · simp only [if_pos hd0] at hpanel hpv
      have hpvA : pv = szA := by rw [hpv] at hszA; exact Option.some.inj hszA
      subst hpvA
      simp only [if_pos hd0, hA, if_neg (show ¬ (((k + 1 : ℕ) : ℤ) < 0) from by omega),
        Int.toNat_natCast, hpanel, hpv]
      by_cases hch : pv = safeResizePanel panel |delta| pv event
      · rw [if_pos hch]
        refine ⟨⟨fun _ => Or.inr (Or.inl hch.symm), fun _ => rfl⟩, ?_⟩
        intro ns hns
        exact absurd hns (by simp)
      · rw [if_neg hch]
        by_cases hd1 : pv - safeResizePanel panel |delta| pv event < 0
        · simp only [if_pos hd1, hB, if_neg (show ¬ (((k : ℕ) : ℤ) < 0) from by omega),
            Int.toNat_natCast]
          cases hloopE : adjustLoop (panelsMapToSortedArray panels) prevSizes event
              (pv - safeResizePanel panel |delta| pv event)
              ((panelsMapToSortedArray panels).length + 1) k prevSizes 0
              (if safeResizePanel panel |delta| pv event = 0 ∧ pv > 0
                then [(idAfter, pv)] else []) with
          | none =>
            refine ⟨⟨fun hc => absurd hc (by simp), fun hrhs => ?_⟩, ?_⟩
            · rcases hrhs with h0' | hne | ⟨l, c, hlc⟩
              · exact absurd h0' h0
              · exact absurd hne.symm hch
              · exact Option.noConfusion hlc
            · intro ns hns
              exact absurd hns (by simp)
          | some out =>
            obtain ⟨ns0, dA, col1⟩ := out
            by_cases hdA : dA = 0
            · subst hdA
              simp only [if_pos rfl]
              refine ⟨⟨fun _ => Or.inr (Or.inr ⟨ns0, col1, rfl⟩), fun _ => rfl⟩, ?_⟩
              intro ns hns
              exact absurd hns (by simp)
            · simp only [if_neg hdA, if_pos hd1, hA,
                if_neg (show ¬ (((k + 1 : ℕ) : ℤ) < 0) from by omega),
                Int.toNat_natCast, hszA]
              refine ⟨⟨fun hc => absurd hc (by simp), fun hrhs => ?_⟩, ?_⟩
              · rcases hrhs with h0' | hne | ⟨l, c, hlc⟩
                · exact absurd h0' h0
                · exact absurd hne.symm hch
                · injection hlc with hlc2
                  injection hlc2 with he1 hrest
                  injection hrest with he2 he3
                  exact absurd he2 (fun hx => hdA hx)
              · intro ns hns hcontra
                obtain ⟨L, S, U⟩ := adjustLoop_spec_down (panelsMapToSortedArray panels)
                  prevSizes event _ hd1 ((panelsMapToSortedArray panels).length + 1) k
                  prevSizes 0 _ ns0 dA col1 (fun i _ => rfl) hloopE
                injection hns with hh
                have hlen0 : k + 1 < ns0.length := by omega
                have h1 : ns[k + 1]? = some (pv + dA) := by
                  rw [← hh]; exact getElem?_set_eq ns0 (k + 1) (pv + dA) hlen0
                rw [hcontra, hszA] at h1
                have : pv = pv + dA := Option.some.inj h1
                exact hdA (by linarith)
        · simp only [if_neg hd1, hA, if_neg (show ¬ (((k + 1 : ℕ) : ℤ) < 0) from by omega),
            Int.toNat_natCast]
          cases hloopE : adjustLoop (panelsMapToSortedArray panels) prevSizes event
              (pv - safeResizePanel panel |delta| pv event)
              ((panelsMapToSortedArray panels).length + 1) (k + 1) prevSizes 0
              (if safeResizePanel panel |delta| pv event = 0 ∧ pv > 0
                then [(idAfter, pv)] else []) with
          | none =>
            refine ⟨⟨fun hc => absurd hc (by simp), fun hrhs => ?_⟩, ?_⟩
            · rcases hrhs with h0' | hne | ⟨l, c, hlc⟩
              · exact absurd h0' h0
              · exact absurd hne.symm hch
              · exact Option.noConfusion hlc
            · intro ns hns
              exact absurd hns (by simp)
          | some out =>
            obtain ⟨ns0, dA, col1⟩ := out
            by_cases hdA : dA = 0
            · subst hdA
              simp only [if_pos rfl]
              refine ⟨⟨fun _ => Or.inr (Or.inr ⟨ns0, col1, rfl⟩), fun _ => rfl⟩, ?_⟩
              intro ns hns
              exact absurd hns (by simp)
            · simp only [if_neg hdA, if_neg hd1, hB,
                if_neg (show ¬ (((k : ℕ) : ℤ) < 0) from by omega),
                Int.toNat_natCast, hszB]
              refine ⟨⟨fun hc => absurd hc (by simp), fun hrhs => ?_⟩, ?_⟩
              · rcases hrhs with h0' | hne | ⟨l, c, hlc⟩
                · exact absurd h0' h0
                · exact absurd hne.symm hch
                · injection hlc with hlc2
                  injection hlc2 with he1 hrest
                  injection hrest with he2 he3
                  exact absurd he2 (fun hx => hdA hx)
              · intro ns hns hcontra
                obtain ⟨L, S, U⟩ := adjustLoop_spec_up (panelsMapToSortedArray panels)
                  prevSizes event _ hd1 ((panelsMapToSortedArray panels).length + 1) (k + 1)
                  prevSizes 0 _ ns0 dA col1 (fun i _ => rfl) hloopE
                injection hns with hh
                have hlen0 : k < ns0.length := by omega
                have h1 : ns[k]? = some (szB + dA) := by
                  rw [← hh]; exact getElem?_set_eq ns0 k (szB + dA) hlen0
                rw [hcontra, hszB] at h1
                have : szB = szB + dA := Option.some.inj h1
                exact hdA (by linarith)
    · simp only [if_neg hd0] at hpanel hpv
      have hpvB : pv = szB := by rw [hpv] at hszB; exact Option.some.inj hszB
      subst hpvB
      simp only [if_neg hd0, hB, if_neg (show ¬ (((k : ℕ) : ℤ) < 0) from by omega),
        Int.toNat_natCast, hpanel, hpv]
      by_cases hch : pv = safeResizePanel panel |delta| pv event
      · rw [if_pos hch]
        refine ⟨⟨fun _ => Or.inr (Or.inl hch.symm), fun _ => rfl⟩, ?_⟩
        intro ns hns
        exact absurd hns (by simp)
      · rw [if_neg hch]
        by_cases hd1 : safeResizePanel panel |delta| pv event - pv < 0
        · simp only [if_pos hd1, hB, if_neg (show ¬ (((k : ℕ) : ℤ) < 0) from by omega),
            Int.toNat_natCast]
          cases hloopE : adjustLoop (panelsMapToSortedArray panels) prevSizes event
              (safeResizePanel panel |delta| pv event - pv)
              ((panelsMapToSortedArray panels).length + 1) k prevSizes 0
              (if safeResizePanel panel |delta| pv event = 0 ∧ pv > 0
                then [(idBefore, pv)] else []) with
          | none =>
            refine ⟨⟨fun hc => absurd hc (by simp), fun hrhs => ?_⟩, ?_⟩
            · rcases hrhs with h0' | hne | ⟨l, c, hlc⟩
              · exact absurd h0' h0
              · exact absurd hne.symm hch
              · exact Option.noConfusion hlc
            · intro ns hns
              exact absurd hns (by simp)
          | some out =>
            obtain ⟨ns0, dA, col1⟩ := out
            by_cases hdA : dA = 0
            · subst hdA
              simp only [if_pos rfl]
              refine ⟨⟨fun _ => Or.inr (Or.inr ⟨ns0, col1, rfl⟩), fun _ => rfl⟩, ?_⟩
              intro ns hns
              exact absurd hns (by simp)
            · simp only [if_neg hdA, if_pos hd1, hA,
                if_neg (show ¬ (((k + 1 : ℕ) : ℤ) < 0) from by omega),
                Int.toNat_natCast, hszA]
              refine ⟨⟨fun hc => absurd hc (by simp), fun hrhs => ?_⟩, ?_⟩
              · rcases hrhs with h0' | hne | ⟨l, c, hlc⟩
                · exact absurd h0' h0
                · exact absurd hne.symm hch
                · injection hlc with hlc2
                  injection hlc2 with he1 hrest
                  injection hrest with he2 he3
                  exact absurd he2 (fun hx => hdA hx)
              · intro ns hns hcontra
                obtain ⟨L, S, U⟩ := adjustLoop_spec_down (panelsMapToSortedArray panels)
                  prevSizes event _ hd1 ((panelsMapToSortedArray panels).length + 1) k
                  prevSizes 0 _ ns0 dA col1 (fun i _ => rfl) hloopE
                injection hns with hh
                have hlen0 : k + 1 < ns0.length := by omega
                have h1 : ns[k + 1]? = some (szA + dA) := by
                  rw [← hh]; exact getElem?_set_eq ns0 (k + 1) (szA + dA) hlen0
                rw [hcontra, hszA] at h1
                have : szA = szA + dA := Option.some.inj h1
                exact hdA (by linarith)
        · simp only [if_neg hd1, hA, if_neg (show ¬ (((k + 1 : ℕ) : ℤ) < 0) from by omega),
            Int.toNat_natCast]
          cases hloopE : adjustLoop (panelsMapToSortedArray panels) prevSizes event
              (safeResizePanel panel |delta| pv event - pv)
              ((panelsMapToSortedArray panels).length + 1) (k + 1) prevSizes 0
              (if safeResizePanel panel |delta| pv event = 0 ∧ pv > 0
                then [(idBefore, pv)] else []) with
          | none =>
            refine ⟨⟨fun hc => absurd hc (by simp), fun hrhs => ?_⟩, ?_⟩
            · rcases hrhs with h0' | hne | ⟨l, c, hlc⟩
              · exact absurd h0' h0
              · exact absurd hne.symm hch
              · exact Option.noConfusion hlc
            · intro ns hns
              exact absurd hns (by simp)
          | some out =>
            obtain ⟨ns0, dA, col1⟩ := out
            by_cases hdA : dA = 0
            · subst hdA
              simp only [if_pos rfl]
              refine ⟨⟨fun _ => Or.inr (Or.inr ⟨ns0, col1, rfl⟩), fun _ => rfl⟩, ?_⟩
              intro ns hns
              exact absurd hns (by simp)
            · simp only [if_neg hdA, if_neg hd1, hB,
                if_neg (show ¬ (((k : ℕ) : ℤ) < 0) from by omega),
                Int.toNat_natCast, hszB]
              refine ⟨⟨fun hc => absurd hc (by simp), fun hrhs => ?_⟩, ?_⟩
              · rcases hrhs with h0' | hne | ⟨l, c, hlc⟩
                · exact absurd h0' h0
                · exact absurd hne.symm hch
                · injection hlc with hlc2
                  injection hlc2 with he1 hrest
                  injection hrest with he2 he3
                  exact absurd he2 (fun hx => hdA hx)
              · intro ns hns hcontra
                obtain ⟨L, S, U⟩ := adjustLoop_spec_up (panelsMapToSortedArray panels)
                  prevSizes event _ hd1 ((panelsMapToSortedArray panels).length + 1) (k + 1)
                  prevSizes 0 _ ns0 dA col1 (fun i _ => rfl) hloopE
                injection hns with hh
                have hlen0 : k < ns0.length := by omega
                have h1 : ns[k]? = some (pv + dA) := by
                  rw [← hh]; exact getElem?_set_eq ns0 k (pv + dA) hlen0
                rw [hcontra, hszB] at h1
                have : pv = pv + dA := Option.some.inj h1
                exact hdA (by linarith)

/-- C8 witness: a `delta = 0` call on two concrete panels returns the identity
outcome, instantiating the characterization. -/
theorem adjustByDelta_identity_signaling_witness :
    (adjustByDelta none
      [⟨"a", 0, 10, 100, false, false, false⟩, ⟨"b", 1, 10, 100, true, false, false⟩]
      "a" "b" 0 [60, 40]).outcome = AdjustOutcome.same :=
  (adjustByDelta_identity_signaling none
    [⟨"a", 0, 10, 100, false, false, false⟩, ⟨"b", 1, 10, 100, true, false, false⟩]
    "a" "b" 0 [60, 40] 0 ⟨"a", 0, 10, 100, false, false, false⟩ 60
    (by with_unfolding_all decide) (by with_unfolding_all decide)
    (by with_unfolding_all decide) (by with_unfolding_all decide)
    (by with_unfolding_all decide)).1.mpr (Or.inl rfl)


/-- C6: collapse hysteresis asymmetry of `safeResizePanel`.  For a collapsible
panel at previous size exactly `0` receiving a growth delta: under a
non-keyboard (pointer) event whose unsafe next size is below `minSize` the
result is exactly `0` (the panel stays collapsed), while under a
keyboard-originated event the result is the standard clamp to
`[minSize, maxSize]` and in particular at least `minSize` — never a positive
value below it. -/
theorem safeResizePanel_collapse_hysteresis (panel : PanelData)
    (event : Option ResizeEvent) (delta : ℚ)
    (hc : panel.collapsible = true) (hminmax : panel.minSize ≤ panel.maxSize)
    (hd : 0 < delta) :
    (isKeyboardEvent event = false → 0 + delta < panel.minSize →
      safeResizePanel panel delta 0 event = 0) ∧
    (isKeyboardEvent event = true →
      safeResizePanel panel delta 0 event =
        min panel.maxSize (max panel.minSize (0 + delta)) ∧
      panel.minSize ≤ safeResizePanel panel delta 0 event) := by
  unfold safeResizePanel
  simp only [hc, if_pos rfl]
  rw [if_neg (lt_irrefl (0 : ℚ))]
  constructor
  · intro hk hlt
    have hcond : isKeyboardEvent event = false ∧ 0 + delta < panel.minSize := ⟨hk, hlt⟩
    rw [if_pos hcond]
    simp
  · intro hk
    have hcond : ¬ (isKeyboardEvent event = false ∧ 0 + delta < panel.minSize) := by
      simp [hk]
    rw [if_neg hcond]
    refine ⟨rfl, ?_⟩
    exact le_min hminmax (le_max_left _ _)

/-- C6 witness: a collapsible panel with bounds `[10, 100]` at size `0` and
delta `4`: a pointer event leaves it at `0`, a `keydown` event lifts it to at
least `minSize = 10`. -/
theorem safeResizePanel_collapse_hysteresis_witness :
    safeResizePanel ⟨"p", 0, 10, 100, true, true, true⟩ 4 0 none = 0 ∧
    (10 : ℚ) ≤ safeResizePanel ⟨"p", 0, 10, 100, true, true, true⟩ 4 0 (some ⟨"keydown"⟩) := by
  constructor
  · exact (safeResizePanel_collapse_hysteresis ⟨"p", 0, 10, 100, true, true, true⟩ none 4
      (by decide) (by with_unfolding_all decide) (by with_unfolding_all decide)).1
      (by decide) (by with_unfolding_all decide)
  · exact (safeResizePanel_collapse_hysteresis ⟨"p", 0, 10, 100, true, true, true⟩
      (some ⟨"keydown"⟩) 4 (by decide) (by with_unfolding_all decide)
      (by with_unfolding_all decide)).2 (by with_unfolding_all decide) |>.2

/-- C10: for every panel collection with more than one panel, `getFlexGrow`
with an id that occurs nowhere in the collection returns the string `"0"` —
the failed lookup (`findIndex` returning `-1`, hence an `undefined` size read)
behaves exactly like a panel whose size is not yet recorded. -/
theorem getFlexGrow_unknown_id (panels : List PanelData) (id : String)
    (sizes : List ℚ) (h1 : 1 < panels.length)
    (h2 : ∀ panel ∈ panels, panel.id ≠ id) :
    getFlexGrow panels id sizes = "0" := by
  have hfi : jsFindIdx (fun panel => panel.id == id) (panelsMapToSortedArray panels) = none := by
    apply jsFindIdx_none
    intro a ha
    have hmem : a ∈ panels := mem_sortPanels.mp ha
    simpa using h2 a hmem
  have hneg : findIndexJs (fun panel => panel.id == id) (panelsMapToSortedArray panels) = -1 := by
    unfold findIndexJs
    rw [hfi]
  simp only [getFlexGrow, if_neg (show ¬ panels.length = 1 from by omega), hneg]
  norm_num

/-- C10 witness: two panels `a`, `b` and the unknown id `zz` yield `"0"`. -/
theorem getFlexGrow_unknown_id_witness :
    getFlexGrow
      [⟨"a", 0, 10, 100, false, false, false⟩, ⟨"b", 1, 10, 100, true, false, false⟩]
      "zz" [30, 70] = "0" :=
  getFlexGrow_unknown_id _ _ _ (by decide) (by decide)


/-- C2: failing input for bounds respect.  All previous sizes `[50, 12, 38]`
lie within their panels' `[minSize, maxSize]` ranges (pivot `a` has
`maxSize = 55`), yet `adjustByDelta` with `delta = 5` returns `[57, 10, 33]`:
the grow-side pivot is committed at `57 > maxSize = 55`, because each
shrink-side panel is asked for the full `|delta|` rather than the remaining
amount, so `deltaApplied = 7` exceeds the pivot-clamped delta `5`. -/
theorem adjustByDelta_pivot_exceeds_max :
    (adjustByDelta none
      [⟨"a", 0, 10, 55, false, false, false⟩, ⟨"b", 1, 10, 100, false, false, false⟩,
        ⟨"c", 2, 10, 100, false, false, false⟩]
      "a" "b" 5 [50, 12, 38]).outcome = AdjustOutcome.next [57, 10, 33] ∧
    ((10 : ℚ) ≤ 50 ∧ (50 : ℚ) ≤ 55) ∧ ((10 : ℚ) ≤ 12 ∧ (12 : ℚ) ≤ 100) ∧
      ((10 : ℚ) ≤ 38 ∧ (38 : ℚ) ≤ 100) ∧
    (55 : ℚ) < 57 := by
  with_unfolding_all decide

/-- C3: failing input for the walk's stop condition.  With target magnitude
`10`, panel `b` supplies `9`; numerically `9 < 10` at every precision, and
panel `c` could still shrink (by the remaining `1`), but the walk breaks
because the loop compares `toPrecision` *strings* with JavaScript `>=`, and
`"9.0000" >= "10.000"` holds lexicographically.  The returned array `[49, 10,
41]` leaves the target unmet while a shrinkable panel remains. -/
theorem adjustByDelta_walk_stops_early :
    (adjustByDelta none
      [⟨"a", 0, 10, 100, false, false, false⟩, ⟨"b", 1, 10, 100, false, false, false⟩,
        ⟨"c", 2, 10, 100, false, false, false⟩]
      "a" "b" 10 [40, 19, 41]).outcome = AdjustOutcome.next [49, 10, 41] ∧
    (9 : ℚ) < 10 ∧
    jsStrGe (toPrecision 9 PRECISION) (toPrecision 10 PRECISION) = true ∧
    safeResizePanel ⟨"c", 2, 10, 100, false, false, false⟩ (0 - 1) 41 none = 40 := by
  with_unfolding_all decide

/-- C4: failing input for the remaining-delta claim.  The pivot-clamped delta
is `5`, panel `b` supplies `2`, and panel `c` is then asked to shrink by the
full `5` (landing at `33 = 38 - 5`) instead of the remaining `3` (which would
land at `35`): the total removed from the shrink side is `7 > 5`. -/
theorem adjustByDelta_requests_full_delta :
    (adjustByDelta none
      [⟨"a", 0, 10, 100, false, false, false⟩, ⟨"b", 1, 10, 100, false, false, false⟩,
        ⟨"c", 2, 10, 100, false, false, false⟩]
      "a" "b" 5 [50, 12, 38]).outcome = AdjustOutcome.next [57, 10, 33] ∧
    safeResizePanel ⟨"a", 0, 10, 100, false, false, false⟩ 5 50 none = 55 ∧
    (12 - 10 : ℚ) + (38 - 33) = 7 ∧ (5 : ℚ) < 7 ∧
    safeResizePanel ⟨"c", 2, 10, 100, false, false, false⟩ (0 - 5) 38 none = 33 ∧
    safeResizePanel ⟨"c", 2, 10, 100, false, false, false⟩ (0 - 3) 38 none = 35 := by
  with_unfolding_all decide

/-- C5: failing input for partial fulfillment.  With `delta = -10` at divider
`(b, c)`, the shrink side (`b` then `a`) can supply only `k = 9 < 10` in total,
so the claim requires the pivot `c` to grow by exactly `9`.  But after `b`
supplies `5`, the loop compares `deltaApplied = 5` against the *negative*
rebound delta `-10` as strings, and `"5.0000" >= "-10.000"` holds
lexicographically, so the walk stops at once: `c` grows by `5`, not `9`,
although `a` could still shrink by `4`. -/
theorem adjustByDelta_partial_fulfillment_shortfall :
    (adjustByDelta none
      [⟨"a", 0, 31, 100, false, false, false⟩, ⟨"b", 1, 30, 100, false, false, false⟩,
        ⟨"c", 2, 10, 100, false, false, false⟩]
      "b" "c" (-10) [35, 35, 30]).outcome = AdjustOutcome.next [35, 30, 35] ∧
    (35 - 30 : ℚ) + (35 - 31) = 9 ∧ (9 : ℚ) < 10 ∧
    safeResizePanel ⟨"a", 0, 31, 100, false, false, false⟩ (0 - 10) 35 none = 31 ∧
    jsStrGe (toPrecision 5 PRECISION) (toPrecision (-10) PRECISION) = true ∧
    (35 - 30 : ℚ) = 5 ∧ (5 : ℚ) ≠ 9 := by
  with_unfolding_all decide

/-- C9: failing input for the direction-of-flow property.  Every previous size
is in bounds (`b` is a collapsed collapsible panel at `0`).  Under a `keydown`
event with `delta = 5` (grow pivot `a`), `safeResizePanel` expands the
shrink-side collapsed panel `b` from `0` to its `minSize` `10` (the keyboard
branch skips the pointer hysteresis even for a negative request), making
`deltaApplied` negative: the result `[50, 10, 40]` grows non-pivot `b` and
*shrinks* the grow-side pivot `a` from `55` to `50`. -/
theorem adjustByDelta_keyboard_expands_shrink_side :
    (adjustByDelta (some ⟨"keydown"⟩)
      [⟨"a", 0, 10, 100, false, false, false⟩, ⟨"b", 1, 10, 100, true, false, false⟩,
        ⟨"c", 2, 10, 100, false, false, false⟩]
      "a" "b" 5 [55, 0, 45]).outcome = AdjustOutcome.next [50, 10, 40] ∧
    ((10 : ℚ) ≤ 55 ∧ (55 : ℚ) ≤ 100) ∧ ((10 : ℚ) ≤ 45 ∧ (45 : ℚ) ≤ 100) ∧
    (0 : ℚ) < 10 ∧
    (50 : ℚ) < 55 := by
  with_unfolding_all decide



/-- Position of a callback invocation. -/
def PanelCall.idx : PanelCall → ℕ
  | PanelCall.resize i _ => i
  | PanelCall.collapse i _ => i

theorem callbacksAt_idx {arr : List PanelData} {prev : List ℚ} {i : ℕ} {n : ℚ}
    {cs : List PanelCall} (h : callbacksAt arr prev i n = some cs) :
    ∀ c ∈ cs, PanelCall.idx c = i := by
  unfold callbacksAt at h
  by_cases hne : jsNeq prev[i]? n = true
  · rw [if_pos hne] at h
    cases harr : arr[i]? with
    | none => rw [harr] at h; exact Option.noConfusion h
    | some panel =>
      rw [harr] at h
      injection h with h
      subst h
      intro c hc
      rcases List.mem_append.mp hc with hc | hc
      · by_cases hr : panel.hasOnResize = true
        · rw [if_pos hr] at hc
          rw [List.mem_singleton.mp hc]
          rfl
        · rw [if_neg hr] at hc
          exact absurd hc (List.not_mem_nil c)
      · by_cases hcb : panel.collapsible = true ∧ panel.hasOnCollapse = true
        · rw [if_pos hcb] at hc
          by_cases h1 : jsFalsy prev[i]? = true ∧ n ≠ 0
          · rw [if_pos h1] at hc
            rw [List.mem_singleton.mp hc]
            rfl
          · rw [if_neg h1] at hc
            by_cases h2 : jsNeqZero prev[i]? = true ∧ n = 0
            · rw [if_pos h2] at hc
              rw [List.mem_singleton.mp hc]
              rfl
            · rw [if_neg h2] at hc
              exact absurd hc (List.not_mem_nil c)
        · rw [if_neg hcb] at hc
          exact absurd hc (List.not_mem_nil c)
  · rw [if_neg hne] at h
    injection h with h
    subst h
    intro c hc
    exact absurd hc (List.not_mem_nil c)

theorem callRun_idx_ge {arr : List PanelData} {prev : List ℚ} :
    ∀ {rest : List ℚ} {i : ℕ} {calls : List PanelCall},
      callRun arr prev i rest = some calls → ∀ c ∈ calls, i ≤ PanelCall.idx c := by
  intro rest
  induction rest with
  | nil =>
    intro i calls h c hc
    unfold callRun at h
    injection h with h
    subst h
    exact absurd hc (List.not_mem_nil c)
  | cons n0 rest ih =>
    intro i calls h c hc
    unfold callRun at h
    cases hc0 : callbacksAt arr prev i n0 with
    | none => rw [hc0] at h; exact Option.noConfusion h
    | some cs0 =>
      rw [hc0] at h
      cases hr : callRun arr prev (i + 1) rest with
      | none => rw [hr] at h; exact Option.noConfusion h
      | some rest1 =>
        rw [hr] at h
        injection h with h
        subst h
        rcases List.mem_append.mp hc with hmem | hmem
        · exact le_of_eq (callbacksAt_idx hc0 c hmem).symm
        · exact Nat.le_of_succ_le (ih hr c hmem)

theorem callRun_mem {arr : List PanelData} {prev : List ℚ} :
    ∀ {rest : List ℚ} {i : ℕ} {calls : List PanelCall},
      callRun arr prev i rest = some calls →
      ∀ {j : ℕ} {n : ℚ}, rest[j]? = some n →
      ∃ cs, callbacksAt arr prev (i + j) n = some cs ∧
        ∀ c : PanelCall, PanelCall.idx c = i + j → (c ∈ calls ↔ c ∈ cs) := by
  intro rest
  induction rest with
  | nil =>
    intro i calls _ j n hj
    exact absurd hj (by simp)
  | cons n0 rest ih =>
    intro i calls h j n hj
    unfold callRun at h
    cases hc0 : callbacksAt arr prev i n0 with
    | none => rw [hc0] at h; exact Option.noConfusion h
    | some cs0 =>
      rw [hc0] at h
      cases hr : callRun arr prev (i + 1) rest with
      | none => rw [hr] at h; exact Option.noConfusion h
      | some rest1 =>
        rw [hr] at h
        injection h with h
        subst h
        cases j with
        | zero =>
          simp only [List.getElem?_cons_zero] at hj
          injection hj with hj
          subst hj
          refine ⟨cs0, by simpa using hc0, ?_⟩
          intro c hidx
          constructor
          · intro hmem
            rcases List.mem_append.mp hmem with hmem | hmem
            · exact hmem
            · have := callRun_idx_ge hr c hmem
              omega
          · intro hmem
            exact List.mem_append.mpr (Or.inl hmem)
        | succ j =>
          simp only [List.getElem?_cons_succ] at hj
          obtain ⟨cs, hcs, hiff⟩ := ih hr hj
          refine ⟨cs, by rw [show i + (j + 1) = i + 1 + j from by omega]; exact hcs, ?_⟩
          intro c hidx
          rw [← hiff c (by omega)]
          constructor
          · intro hmem
            rcases List.mem_append.mp hmem with hmem | hmem
            · have := callbacksAt_idx hc0 c hmem
              omega
            · exact hmem
          · intro hmem
            exact List.mem_append.mpr (Or.inr hmem)

/-- `!prevSize` is truthy exactly for an absent or zero previous size. -/
theorem jsFalsy_iff {p : Option ℚ} : jsFalsy p = true ↔ p = none ∨ p = some 0 := by
  cases p with
  | none => simp [jsFalsy]
  | some v => simp [jsFalsy]

/-- `prevSize !== 0` holds exactly when the previous size is not `some 0`
(in particular it holds for an absent previous size). -/
theorem jsNeqZero_iff {p : Option ℚ} : jsNeqZero p = true ↔ p ≠ some 0 := by
  cases p with
  | none => simp [jsNeqZero]
  | some v => simp [jsNeqZero]

/-- `prevSize !== nextSize` holds exactly when the previous size is not
exactly the next size (absent previous sizes always differ). -/
theorem jsNeq_iff {p : Option ℚ} {n : ℚ} : jsNeq p n = true ↔ p ≠ some n := by
  cases p with
  | none => simp [jsNeq]
  | some v => simp [jsNeq]

/-- C7 (amended): change-notification contract of `callPanelCallbacks`.  At
every index `i` of `nextSizes` backed by a panel, `onResize` fires with the new
size exactly when the hook is present and the previous size is not exactly the
next size; `onCollapse(false)` fires exactly when the panel is collapsible with
the hook present, the previous size is absent or zero, and the next size is
nonzero; `onCollapse(true)` fires exactly when the panel is collapsible with
the hook present, the previous size is *not `some 0`* — i.e. a nonzero size or
an absent one — and the next size is exactly `0`; unchanged indices contribute
no calls.  (The amendment relative to the claim: on the collapse side an
*absent* previous size also fires `onCollapse(true)`, because JavaScript's
`prevSize !== 0` is true for `undefined`.)  Moreover the claim's concrete
scenario holds: `prevSizes = [30, 20]`, `nextSizes = [30, 0]` with panel 2
collapsible yields exactly one `onResize(0)` and one `onCollapse(true)` for
panel 2 and no calls for panel 1. -/
theorem callPanelCallbacks_contract :
    (∀ (panelsArray : List PanelData) (prevSizes nextSizes : List ℚ)
        (calls : List PanelCall) (i : ℕ) (n : ℚ) (panel : PanelData),
        callPanelCallbacks panelsArray prevSizes nextSizes = some calls →
        nextSizes[i]? = some n → panelsArray[i]? = some panel →
        ((PanelCall.resize i n ∈ calls ↔
            panel.hasOnResize = true ∧ prevSizes[i]? ≠ some n) ∧
          (PanelCall.collapse i false ∈ calls ↔
            panel.collapsible = true ∧ panel.hasOnCollapse = true ∧
              (prevSizes[i]? = none ∨ prevSizes[i]? = some 0) ∧ n ≠ 0) ∧
          (PanelCall.collapse i true ∈ calls ↔
            panel.collapsible = true ∧ panel.hasOnCollapse = true ∧
              prevSizes[i]? ≠ some 0 ∧ n = 0))) ∧
    callPanelCallbacks
      [⟨"p1", 0, 10, 100, false, true, true⟩, ⟨"p2", 1, 10, 100, true, true, true⟩]
      [30, 20] [30, 0] = some [PanelCall.resize 1 0, PanelCall.collapse 1 true] := by
  constructor
  · intro arr prev next calls i n panel hcall hn harr
    obtain ⟨cs, hcs, hiff⟩ := callRun_mem hcall hn
    rw [Nat.zero_add] at hcs hiff
    unfold callbacksAt at hcs
    by_cases hne : jsNeq prev[i]? n = true
    · rw [if_pos hne, harr] at hcs
      injection hcs with hcs
      subst hcs
      have hpne : prev[i]? ≠ some n := jsNeq_iff.mp hne
      refine ⟨?_, ?_, ?_⟩
      · rw [hiff (PanelCall.resize i n) rfl]
        simp only [List.mem_append, List.mem_ite_nil_right, List.mem_singleton]
        constructor
        · rintro (⟨hr, -⟩ | ⟨-, hmem⟩)
          · exact ⟨hr, hpne⟩
          · exfalso
            by_cases h1 : jsFalsy prev[i]? = true ∧ n ≠ 0
            · rw [if_pos h1] at hmem
              exact absurd (List.mem_singleton.mp hmem) (by simp)
            · rw [if_neg h1] at hmem
              by_cases h2 : jsNeqZero prev[i]? = true ∧ n = 0
              · rw [if_pos h2] at hmem
                exact absurd (List.mem_singleton.mp hmem) (by simp)
              · rw [if_neg h2] at hmem
                exact absurd hmem (List.not_mem_nil _)
        · rintro ⟨hr, -⟩
          exact Or.inl ⟨hr, by simp⟩
      · rw [hiff (PanelCall.collapse i false) rfl]
        simp only [List.mem_append, List.mem_ite_nil_right, List.mem_singleton]
        constructor
        · rintro (⟨-, habs⟩ | ⟨hcb, hmem⟩)
          · exact absurd habs (by simp)
          · by_cases h1 : jsFalsy prev[i]? = true ∧ n ≠ 0
            · exact ⟨hcb.1, hcb.2, jsFalsy_iff.mp h1.1, h1.2⟩
            · exfalso
              rw [if_neg h1] at hmem
              by_cases h2 : jsNeqZero prev[i]? = true ∧ n = 0
              · rw [if_pos h2] at hmem
                exact absurd (List.mem_singleton.mp hmem) (by simp)
              · rw [if_neg h2] at hmem
                exact absurd hmem (List.not_mem_nil _)
        · rintro ⟨hc1, hc2, hfalsy, hn0⟩
          refine Or.inr ⟨⟨hc1, hc2⟩, ?_⟩
          rw [if_pos ⟨jsFalsy_iff.mpr hfalsy, hn0⟩]
          exact List.mem_singleton.mpr rfl
      · rw [hiff (PanelCall.collapse i true) rfl]
        simp only [List.mem_append, List.mem_ite_nil_right, List.mem_singleton]
        constructor
        · rintro (⟨-, habs⟩ | ⟨hcb, hmem⟩)
          · exact absurd habs (by simp)
          · by_cases h1 : jsFalsy prev[i]? = true ∧ n ≠ 0
            · rw [if_pos h1] at hmem
              exact absurd (List.mem_singleton.mp hmem) (by simp)
            · rw [if_neg h1] at hmem
              by_cases h2 : jsNeqZero prev[i]? = true ∧ n = 0
              · rw [if_pos h2] at hmem
                exact ⟨hcb.1, hcb.2, jsNeqZero_iff.mp h2.1, h2.2⟩
              · rw [if_neg h2] at hmem
                exact absurd hmem (List.not_mem_nil _)
        · rintro ⟨hc1, hc2, hz, hn0⟩
          refine Or.inr ⟨⟨hc1, hc2⟩, ?_⟩
          have h1 : ¬ (jsFalsy prev[i]? = true ∧ n ≠ 0) := by
            rintro ⟨-, habs⟩
            exact habs hn0
          rw [if_neg h1, if_pos ⟨jsNeqZero_iff.mpr hz, hn0⟩]
          exact List.mem_singleton.mpr rfl
    · rw [if_neg hne] at hcs
      injection hcs with hcs
      subst hcs
      have hpeq : prev[i]? = some n := by
        by_contra hcon
        exact hne (jsNeq_iff.mpr hcon)
      refine ⟨?_, ?_, ?_⟩
      · rw [hiff (PanelCall.resize i n) rfl]
        simp only [List.not_mem_nil, false_iff]
        rintro ⟨-, habs⟩
        exact habs hpeq
      · rw [hiff (PanelCall.collapse i false) rfl]
        simp only [List.not_mem_nil, false_iff]
        rintro ⟨-, -, hfalsy, hn0⟩
        rcases hfalsy with hnone | hzero
        · rw [hpeq] at hnone
          exact Option.noConfusion hnone
        · rw [hpeq] at hzero
          exact hn0 (Option.some.inj hzero)
      · rw [hiff (PanelCall.collapse i true) rfl]
        simp only [List.not_mem_nil, false_iff]
        rintro ⟨-, -, hz, hn0⟩
        subst hn0
        exact hz hpeq
  · with_unfolding_all decide

/-- C7 counterexample: the claim as stated says `onCollapse(true)` fires
*exactly when the previous size is a nonzero size* and the next size is `0`.
But for a collapsible panel with both hooks, an absent previous size (initial
mount, `prevSizes = []`) and next size `0` fire `onResize(0)` *and*
`onCollapse(true)` — the previous size is not a nonzero size, yet the collapse
hook fires, because `undefined !== 0` in JavaScript. -/
theorem callPanelCallbacks_collapse_on_absent_prev :
    callPanelCallbacks [⟨"p", 0, 10, 100, true, true, true⟩] ([] : List ℚ) [0] =
      some [PanelCall.resize 0 0, PanelCall.collapse 0 true] := by
  with_unfolding_all decide

/-- C7 witness: instantiating the contract at the concrete scenario — in the
calls produced for `prevSizes = [30, 20]`, `nextSizes = [30, 0]`,
`onCollapse(true)` for panel 2 is indeed among them. -/
theorem callPanelCallbacks_contract_witness :
    PanelCall.collapse 1 true ∈ [PanelCall.resize 1 0, PanelCall.collapse 1 true] :=
  ((callPanelCallbacks_contract.1
      [⟨"p1", 0, 10, 100, false, true, true⟩, ⟨"p2", 1, 10, 100, true, true, true⟩]
      [30, 20] [30, 0] [PanelCall.resize 1 0, PanelCall.collapse 1 true] 1 0
      ⟨"p2", 1, 10, 100, true, true, true⟩
      callPanelCallbacks_contract.2 (by with_unfolding_all decide)
      (by with_unfolding_all decide)).2.2).mpr
    (by with_unfolding_all decide)

end RRP
